import Mathlib

/-!
Verification of the OperateID assembly core: identity-string normalization
and parsing, partner URL building, the Qoboto API response-section
selection, the timed response cache, and the per-identity resource
accessors with their fallback chain.  Every definition is a shallow
embedding of the corresponding JavaScript in
src/js/operateIdAssembly.js; machine strings are Lean Strings over their
character lists, JSON values are an inductive type, and the stateful
pieces (network context, cache, per-field memo and override maps) are
modelled by explicit state passing.
-/

namespace OperateId

/-- JSON-like values, as produced by parsing an API response body. -/
inductive JVal where
  | jnull
  | jbool (b : Bool)
  | jnum (n : Int)
  | jstr (s : String)
  | jarr (elems : List JVal)
  | jobj (fields : List (String × JVal))
deriving Repr

/-- JavaScript truthiness of a JSON value: null, false, 0 and the empty
string are falsy; every array and object is truthy. -/
def jvTruthy : JVal → Bool
  | .jnull => false
  | .jbool b => b
  | .jnum n => n != 0
  | .jstr s => s != ""
  | .jarr _ => true
  | .jobj _ => true

/-- Property lookup on an object field list (first binding wins). -/
def lookupField : List (String × JVal) → String → Option JVal
  | [], _ => none
  | (k, v) :: rest, key => if k = key then some v else lookupField rest key

/-- The value of the JavaScript expression item.name when it is a string:
only objects carry properties, and a non-string name never compares
equal to a string literal. -/
def getName : JVal → Option String
  | .jobj fs =>
    match lookupField fs "name" with
    | some (.jstr s) => some s
    | _ => none
  | _ => none

/-- The predicate of the find callback in _findMainSection:
item and item.name === "main". -/
def isMainItem (item : JVal) : Bool :=
  jvTruthy item && (getName item == some "main")

/-- QobotoApiService._findMainSection: a plain (non-null, non-array)
object is returned as-is for backward compatibility; an array is scanned
for its first element named "main"; anything else yields null. -/
def findMainSection : JVal → Option JVal
  | .jobj fs => some (.jobj fs)
  | .jarr xs => xs.find? isMainItem
  | _ => none

/-- Character-list test used to model String.prototype.startsWith. -/
def listIsPre : List Char → List Char → Bool
  | [], _ => true
  | _ :: _, [] => false
  | a :: as, b :: bs => a == b && listIsPre as bs

/-- Character-list test used to model String.prototype.includes: the
pattern occurs as a contiguous run somewhere in the list. -/
def listHasSub (pat : List Char) : List Char → Bool
  | [] => listIsPre pat []
  | c :: cs => listIsPre pat (c :: cs) || listHasSub pat cs

/-- Model of s.includes(pat). -/
def strIncludes (s pat : String) : Bool := listHasSub pat.data s.data

/-- Model of s.startsWith(pat). -/
def strStartsWith (s pat : String) : Bool := listIsPre pat.data s.data

/-- Model of s.substring(n) (drop the first n code units, clamped). -/
def strDrop (s : String) (n : Nat) : String := String.mk (s.data.drop n)

/-- Model of s.toLowerCase() on the character list. -/
def jsToLower (s : String) : String := String.mk (s.data.map Char.toLower)

/-- Whitespace test backing the model of s.trim(). -/
def isJsSpace (c : Char) : Bool := c.isWhitespace

/-- Model of s.trim(): drop leading and trailing whitespace. -/
def jsTrim (s : String) : String :=
  String.mk (((s.data.dropWhile isJsSpace).reverse.dropWhile isJsSpace).reverse)

/-- Model of url.replace of the trailing-slash-run pattern with the
empty string: remove every trailing '/' character. -/
def stripTrailingSlashes (s : String) : String :=
  String.mk ((s.data.reverse.dropWhile (fun c => c == '/')).reverse)

/-- IdentityFormatterClass.formatIdentity: lower-case, then prepend the
scheme when the string does not contain it, then append the suffix when
the string does not contain it; an empty (falsy) input is returned
untouched. -/
def formatIdentity (identityUrl : String) : String :=
  if identityUrl = "" then identityUrl
  else
    let lowered := jsToLower identityUrl
    let withScheme := if strIncludes lowered "acc://" then lowered else "acc://" ++ lowered
    if strIncludes withScheme ".acme" then withScheme else withScheme ++ ".acme"

/-- Model of path.split(sep) for a one-character separator, with the
JavaScript behavior that the result is never empty and splitting the
empty string yields one empty segment. -/
def splitOnChar (sep : Char) : List Char → List (List Char)
  | [] => [[]]
  | c :: cs =>
    match splitOnChar sep cs with
    | [] => [[]]
    | h :: t => if c == sep then [] :: h :: t else (c :: h) :: t

/-- The record built by AdiStringHelper.parseAdi2. -/
structure Adi where
  url : String
  path : String
  name : String
  rootUrl : String
  subPath : String
deriving Repr, DecidableEq

/-- AdiStringHelper.fixAdiUrl: lower-case then remove trailing slashes;
a falsy (empty) input is returned untouched. -/
def fixAdiUrl (url : String) : String :=
  if url = "" then url
  else stripTrailingSlashes (jsToLower url)

/-- AdiStringHelper.parseAdi2: null on empty or all-whitespace input,
otherwise fix the url, ensure the scheme, and decompose on the first two
dot-separated segments; the subPath is the second segment minus its
five-character "acme/" lead when it is longer than five characters. -/
def parseAdi2 (adiUrl : String) : Option Adi :=
  if jsTrim adiUrl = "" then none
  else
    let fixed := fixAdiUrl adiUrl
    let withScheme := if strStartsWith fixed "acc://" then fixed else "acc://" ++ fixed
    let path := strDrop withScheme 6
    let segments := splitOnChar '.' path.data
    let name := String.mk (segments.headD [])
    let remaining := String.mk ((segments.drop 1).headD [])
    some { url := withScheme
           path := path
           name := name
           rootUrl := "acc://" ++ name ++ ".acme"
           subPath := if remaining.length > 5 then strDrop remaining 5 else "" }

/-- The state of an AdiUrlClass instance after init_ByAdiUrl: when the
parse failed, name and path stay the JavaScript undefined and pathEnd
keeps its constructor default of the empty string. -/
structure AdiUrl where
  url : String
  name : Option String
  path : Option String
  pathEnd : String
deriving Repr, DecidableEq

/-- JavaScript string coercion of a possibly-undefined value as it
occurs inside string concatenation. -/
def jsCoerce : Option String → String
  | some s => s
  | none => "undefined"

/-- AdiUrlClass.createByUrl followed by init_ByAdiUrl. -/
def AdiUrl.init_ByAdiUrl (url : String) : AdiUrl :=
  match parseAdi2 url with
  | some adi => { url := url, name := some adi.name, path := some adi.path, pathEnd := adi.subPath }
  | none => { url := url, name := none, path := none, pathEnd := "" }

/-- NetworkNameServiceClass.currentNetworkName over the explicit
network-name state. -/
def currentNetworkName (networkState : String) : String := networkState

/-- NetworkNameServiceClass.switchNetworkName: last write wins. -/
def switchNetworkName (_networkState newName : String) : String := newName

/-- AdiUrlClass.calculate_app_Url, which refreshes the network name from
the network service on every call (modelled by taking the current
network state as an argument). -/
def calculate_app_Url (a : AdiUrl) (appSite : String) (networkState : String) : String :=
  "https://" ++ jsCoerce a.name ++ "." ++ appSite ++ "/" ++ a.pathEnd
    ++ "?current-network=" ++ currentNetworkName networkState

/-- AdiUrlClass.bankOnLedger_Url. -/
def bankOnLedger_Url (a : AdiUrl) (networkState : String) : String :=
  calculate_app_Url a "BankOnLedger.com" networkState

/-- AdiUrlClass.qoboto_Url. -/
def qoboto_Url (a : AdiUrl) (networkState : String) : String :=
  calculate_app_Url a "Qoboto.com" networkState

/-- The match of the OpIdInfoFactoryClass regular expression against a
string: the string must start with the scheme, then one or more
characters none of which is a dot or a slash (the identity name), then
the literal ".acme", then either the end or a slash followed by the
remainder (the path).  The greedy character class can only stop at the
first dot or slash, so the decomposition is deterministic. -/
def matchIdentityRegex (s : String) : Option (String × String) :=
  if strStartsWith s "acc://" then
    let t := strDrop s 6
    let root := String.mk (t.data.takeWhile (fun c => c != '.' && c != '/'))
    if root = "" then none
    else
      let rest := String.mk (t.data.drop root.length)
      if strStartsWith rest ".acme" then
        let rest2 := strDrop rest 5
        if rest2 = "" then some (root, "")
        else if strStartsWith rest2 "/" then some (root, strDrop rest2 1)
        else none
      else none
  else none

/-- The state of an OpIdInfoClass instance after a successful
createByIdentityUrl, including the AdiUrlClass built by init. -/
structure OpIdInfo where
  identityTrain : String
  identityName : String
  identityUrl : String
  adiInfo : AdiUrl
deriving Repr, DecidableEq

/-- OpIdInfoFactoryClass.createByIdentityUrl: format the input, match it
against the identity pattern, build the dotted identity train from the
name and the non-empty path segments, and initialize the AdiUrlClass;
null when the pattern does not match. -/
def createByIdentityUrl (identityUrl : String) : Option OpIdInfo :=
  let formatted := formatIdentity identityUrl
  match matchIdentityRegex formatted with
  | none => none
  | some (identityName, path) =>
    let segs := (splitOnChar '/' path.data).filter (fun seg => seg ≠ [])
    some { identityTrain := String.intercalate "." (identityName :: segs.map String.mk)
           identityName := identityName
           identityUrl := formatted
           adiInfo := AdiUrl.init_ByAdiUrl formatted }

/-- AdiParse.getBankOnLedgerUrl: null when the info factory rejects the
input, otherwise the BankOnLedger URL of the embedded AdiUrlClass. -/
def getBankOnLedgerUrl (identityUrl : String) (networkState : String) : Option String :=
  match createByIdentityUrl identityUrl with
  | none => none
  | some info => some (bankOnLedger_Url info.adiInfo networkState)

/-- One entry of the QobotoApiService response cache. -/
structure CacheEntry where
  data : JVal
  timestamp : Nat
deriving Repr

/-- The QobotoApiService cache Map, keys unique by construction. -/
abbrev ApiCache := List (String × CacheEntry)

/-- Model of Map.prototype.get combined with Map.prototype.has. -/
def mapGet : ApiCache → String → Option CacheEntry
  | [], _ => none
  | (k, e) :: rest, key => if k = key then some e else mapGet rest key

/-- Model of Map.prototype.set: replace the binding in place or append
a new one. -/
def mapSet : ApiCache → String → CacheEntry → ApiCache
  | [], key, entry => [(key, entry)]
  | (k, e) :: rest, key, entry =>
    if k = key then (key, entry) :: rest else (k, e) :: mapSet rest key entry

/-- Model of Map.prototype.delete. -/
def mapDelete : ApiCache → String → ApiCache
  | [], _ => []
  | (k, e) :: rest, key =>
    if k = key then mapDelete rest key else (k, e) :: mapDelete rest key

/-- The cacheTimeout constant of QobotoApiService: five minutes in
milliseconds. -/
def cacheTimeout : Nat := 5 * 60 * 1000

/-- The cache-consulting head of QobotoApiService.getIdentityData: a hit
younger than the timeout returns the stored data; an entry at or beyond
the timeout is deleted and treated as a miss; a missing key is a miss.
Returns the looked-up value and the cache after the lookup. -/
def cacheLookup (cache : ApiCache) (key : String) (now : Nat) : Option JVal × ApiCache :=
  match mapGet cache key with
  | none => (none, cache)
  | some entry =>
    if now - entry.timestamp < cacheTimeout then (some entry.data, cache)
    else (none, mapDelete cache key)

/-- The cache write of QobotoApiService.getIdentityData: store the data
with the current time as its timestamp. -/
def cacheStore (cache : ApiCache) (key : String) (v : JVal) (now : Nat) : ApiCache :=
  mapSet cache key { data := v, timestamp := now }

/-- QobotoApiService.clearCache with an identity: delete one key. -/
def clearCacheKey (cache : ApiCache) (key : String) : ApiCache := mapDelete cache key

/-- QobotoApiService.clearCache without an identity: clear all. -/
def clearCacheAll (_cache : ApiCache) : ApiCache := []

/-- The field extraction shared by the QobotoApiService accessors:
select the main section of the parsed response, read the requested
property, and collapse a falsy value to null with the or-null idiom. -/
def clientFieldLookup (resp : JVal) (field : String) : Option JVal :=
  match findMainSection resp with
  | none => none
  | some sec =>
    match sec with
    | .jobj fs =>
      match lookupField fs field with
      | some v => if jvTruthy v then some v else none
      | none => none
    | _ => none

/-- The outcome of awaiting a QobotoApiService accessor inside an
OpIdResourceClass accessor: either the promise resolved with a value
(possibly null), or the await threw. -/
inductive ClientResult where
  | ok (v : JVal)
  | threw
deriving Repr

/-- The per-field slice of an OpIdResourceClass instance: its entry in
the _customOverrides map and its entry in the _dataCache map. -/
structure FieldState where
  override : Option JVal
  cache : Option JVal
deriving Repr

/-- Truthiness of a possibly-absent map entry. -/
def optTruthy : Option JVal → Bool
  | none => false
  | some v => jvTruthy v

/-- The state of a freshly constructed OpIdResourceClass: empty
_dataCache and empty _customOverrides. -/
def freshFieldState : FieldState := { override := none, cache := none }

/-- The shared shape of the three OpIdResourceClass accessors: return a
truthy override, else a truthy memo entry, else a truthy fetched value
(memoizing it), else the fixed default (memoizing it); a throw from the
fetch is caught and falls through to the default. -/
def resolveField (st : FieldState) (fetched : ClientResult) (dflt : JVal) : JVal × FieldState :=
  if optTruthy st.override then (st.override.getD JVal.jnull, st)
  else if optTruthy st.cache then (st.cache.getD JVal.jnull, st)
  else
    match fetched with
    | .ok v =>
      if jvTruthy v then (v, { st with cache := some v })
      else (dflt, { st with cache := some dflt })
    | .threw => (dflt, { st with cache := some dflt })

/-- The default logo fallback of OpIdResourceClass.logoUrl. -/
def defaultLogoUrl : String := "https://pub-1c0e543900fc40318aa4c4aec39fb352.r2.dev/logo.png"

/-- The default description fallback of
OpIdResourceClass.sectionMain1Description, built from the identity
name. -/
def defaultDescription (identityName : String) : String :=
  "Welcome to " ++ identityName ++ "\x27s digital identity dashboard."

/-- The default background fallback of
OpIdResourceClass.sectionMain1Background2ImageUrl. -/
def defaultBackgroundImageUrl : String :=
  "https://images.unsplash.com/photo-1557804506-669a67965ba0?ixlib=rb-4.0.3&auto=format&fit=crop&w=1074&q=80"

/-- OpIdResourceClass.logoUrl as a state transformer. -/
def logoUrlAccessor (st : FieldState) (fetched : ClientResult) : JVal × FieldState :=
  resolveField st fetched (JVal.jstr defaultLogoUrl)

/-- OpIdResourceClass.sectionMain1Description as a state transformer. -/
def descriptionAccessor (identityName : String) (st : FieldState) (fetched : ClientResult) :
    JVal × FieldState :=
  resolveField st fetched (JVal.jstr (defaultDescription identityName))

/-- OpIdResourceClass.sectionMain1Background2ImageUrl as a state
transformer. -/
def backgroundAccessor (st : FieldState) (fetched : ClientResult) : JVal × FieldState :=
  resolveField st fetched (JVal.jstr defaultBackgroundImageUrl)

/-- The shared shape of the three OpIdResourceClass manual-override
setters setCustomLogoUrl, setCustomDescription and
setCustomBackgroundImageUrl on the field they write. -/
def setCustomOverride (st : FieldState) (v : JVal) : FieldState :=
  { st with override := some v }

/-- OpIdResourceClass.clearOverrides on one field. -/
def clearOverrides (st : FieldState) : FieldState :=
  { st with override := none }

/-! ### Helper lemmas -/

theorem isMainItem_eq_getName (it : JVal) :
    isMainItem it = (getName it == some "main") := by
  cases it <;> simp [isMainItem, jvTruthy, getName]

theorem find?_eq_of_pred_eq {α : Type} {p q : α → Bool} (h : ∀ a, p a = q a) :
    ∀ l : List α, l.find? p = l.find? q
  | [] => rfl
  | a :: l => by
    rw [List.find?_cons, List.find?_cons, h a, find?_eq_of_pred_eq h l]

theorem mapGet_mapSet_self (c : ApiCache) (k : String) (e : CacheEntry) :
    mapGet (mapSet c k e) k = some e := by
  induction c with
  | nil => simp [mapSet, mapGet]
  | cons hd rest ih =>
    obtain ⟨k', e'⟩ := hd
    by_cases h : k' = k <;> simp [mapSet, mapGet, h, ih]

theorem mapGet_mapSet_ne (c : ApiCache) (k k' : String) (e : CacheEntry)
    (h : k' ≠ k) : mapGet (mapSet c k e) k' = mapGet c k' := by
  induction c with
  | nil => simp [mapSet, mapGet, Ne.symm h]
  | cons hd rest ih =>
    obtain ⟨k₀, e₀⟩ := hd
    by_cases h0 : k₀ = k
    · subst h0
      simp [mapSet, mapGet, Ne.symm h]
    · simp only [mapSet, if_neg h0, mapGet]
      by_cases h1 : k₀ = k' <;> simp [h1, ih]

theorem mapGet_mapDelete_self (c : ApiCache) (k : String) :
    mapGet (mapDelete c k) k = none := by
  induction c with
  | nil => simp [mapDelete, mapGet]
  | cons hd rest ih =>
    obtain ⟨k', e'⟩ := hd
    by_cases h : k' = k <;> simp [mapDelete, mapGet, h, ih]

theorem mapGet_mapDelete_ne (c : ApiCache) (k k' : String) (h : k' ≠ k) :
    mapGet (mapDelete c k) k' = mapGet c k' := by
  induction c with
  | nil => simp [mapDelete, mapGet]
  | cons hd rest ih =>
    obtain ⟨k₀, e₀⟩ := hd
    by_cases h0 : k₀ = k
    · subst h0
      simp [mapDelete, mapGet, Ne.symm h, ih]
    · simp only [mapDelete, if_neg h0, mapGet]
      by_cases h1 : k₀ = k' <;> simp [h1, ih]

theorem cacheTimeout_pos : 0 < cacheTimeout := by decide

theorem charToLower_of_not_upper {c : Char} (h : ¬(c.toNat ≥ 65 ∧ c.toNat ≤ 90)) :
    Char.toLower c = c := by
  simp only [Char.toLower]
  rw [if_neg h]

theorem charToLower_of_upper {c : Char} (h : c.toNat ≥ 65 ∧ c.toNat ≤ 90) :
    Char.toLower c = Char.ofNat (c.toNat + 32) := by
  simp only [Char.toLower]
  rw [if_pos h]

theorem toNat_charOfNat_valid {n : Nat} (h : n.isValidChar) : (Char.ofNat n).toNat = n := by
  rw [Char.ofNat, dif_pos h]
  rfl

theorem charToLower_idem (c : Char) : (Char.toLower c).toLower = Char.toLower c := by
  by_cases h : c.toNat ≥ 65 ∧ c.toNat ≤ 90
  · rw [charToLower_of_upper h]
    apply charToLower_of_not_upper
    have hv : (c.toNat + 32).isValidChar := Or.inl (by omega)
    rw [toNat_charOfNat_valid hv]
    omega
  · rw [charToLower_of_not_upper h, charToLower_of_not_upper h]

theorem jsToLower_idem (s : String) : jsToLower (jsToLower s) = jsToLower s := by
  simp [jsToLower, List.map_map, Function.comp_def, charToLower_idem]

theorem mk_append (a b : List Char) : String.mk a ++ String.mk b = String.mk (a ++ b) := rfl

theorem jsToLower_append (a b : String) : jsToLower (a ++ b) = jsToLower a ++ jsToLower b := by
  cases a with | mk la =>
  cases b with | mk lb =>
  simp [jsToLower, mk_append, List.map_append]

theorem listIsPre_append_self (p r : List Char) : listIsPre p (p ++ r) = true := by
  induction p with
  | nil => rfl
  | cons a as ih => simp [listIsPre, ih]

theorem listHasSub_of_isPre {p l : List Char} (h : listIsPre p l = true) :
    listHasSub p l = true := by
  cases l <;> simp [listHasSub, h]

theorem listHasSub_nil_pat (l : List Char) : listHasSub [] l = true := by
  cases l <;> simp [listHasSub, listIsPre]

theorem listHasSub_append_left {p m : List Char} (h : listHasSub p m = true) (l : List Char) :
    listHasSub p (l ++ m) = true := by
  induction l with
  | nil => simpa using h
  | cons c cs ih => simp [listHasSub, ih]

theorem listIsPre_of_isPre_append {p l : List Char} (h : listIsPre p l = true) (m : List Char) :
    listIsPre p (l ++ m) = true := by
  induction p generalizing l with
  | nil => rfl
  | cons a as ih =>
    cases l with
    | nil => simp [listIsPre] at h
    | cons b bs =>
      simp only [listIsPre, Bool.and_eq_true, beq_iff_eq] at h ⊢
      exact ⟨h.1, ih h.2⟩

theorem listHasSub_append_right {p l : List Char} (h : listHasSub p l = true) (m : List Char) :
    listHasSub p (l ++ m) = true := by
  induction l with
  | nil =>
    cases p with
    | nil => exact listHasSub_nil_pat m
    | cons a as => simp [listHasSub, listIsPre] at h
  | cons c cs ih =>
    simp only [listHasSub, Bool.or_eq_true] at h
    rcases h with h | h
    · exact listHasSub_of_isPre (listIsPre_of_isPre_append h m)
    · simp only [List.cons_append, listHasSub, Bool.or_eq_true]
      exact Or.inr (ih h)

theorem strIncludes_append_right {s : String} (pat : String)
    (h : strIncludes s pat = true) (t : String) : strIncludes (s ++ t) pat = true := by
  cases s with | mk ls =>
  cases t with | mk lt =>
  exact listHasSub_append_right h lt

theorem strIncludes_acc_append (t : String) : strIncludes ("acc://" ++ t) "acc://" = true := by
  cases t with | mk l =>
  exact listHasSub_of_isPre (listIsPre_append_self _ l)

theorem strIncludes_append_acme (t : String) : strIncludes (t ++ ".acme") ".acme" = true := by
  cases t with | mk l =>
  exact listHasSub_append_left (by decide) l

theorem strIncludes_acc_ne_empty {s : String} (h : strIncludes s "acc://" = true) : s ≠ "" := by
  intro he
  rw [he] at h
  exact absurd h (by decide)

theorem formatIdentity_canonical (s : String) (h : s ≠ "") :
    jsToLower (formatIdentity s) = formatIdentity s ∧
    strIncludes (formatIdentity s) "acc://" = true ∧
    strIncludes (formatIdentity s) ".acme" = true := by
  simp only [formatIdentity, if_neg h]
  by_cases h1 : strIncludes (jsToLower s) "acc://" = true
  · rw [if_pos h1]
    by_cases h2 : strIncludes (jsToLower s) ".acme" = true
    · rw [if_pos h2]
      exact ⟨jsToLower_idem s, h1, h2⟩
    · rw [if_neg h2]
      refine ⟨?_, strIncludes_append_right _ h1 _, strIncludes_append_acme _⟩
      rw [jsToLower_append, jsToLower_idem]
      rfl
  · rw [if_neg h1]
    by_cases h2 : strIncludes ("acc://" ++ jsToLower s) ".acme" = true
    · rw [if_pos h2]
      refine ⟨?_, strIncludes_acc_append _, h2⟩
      rw [jsToLower_append, jsToLower_idem]
      rfl
    · rw [if_neg h2]
      refine ⟨?_, strIncludes_append_right _ (strIncludes_acc_append _) _,
        strIncludes_append_acme _⟩
      rw [jsToLower_append, jsToLower_append, jsToLower_idem]
      rfl

theorem formatIdentity_of_canonical {t : String} (hne : t ≠ "")
    (hlow : jsToLower t = t) (hacc : strIncludes t "acc://" = true)
    (hacme : strIncludes t ".acme" = true) : formatIdentity t = t := by
  simp only [formatIdentity, if_neg hne, hlow]
  rw [if_pos hacc, if_pos hacme]

theorem formatIdentity_idem (s : String) :
    formatIdentity (formatIdentity s) = formatIdentity s := by
  by_cases h : s = ""
  · subst h; rfl
  · obtain ⟨hlow, hacc, hacme⟩ := formatIdentity_canonical s h
    exact formatIdentity_of_canonical (strIncludes_acc_ne_empty hacc) hlow hacc hacme

/-- A run of k slash characters, used to state trailing-slash
insensitivity. -/
def slashes (k : Nat) : String := String.mk (List.replicate k '/')

theorem dropWhile_replicate_slash_append (p : Char → Bool) (hp : p '/' = true) :
    ∀ (k : Nat) (m : List Char),
      List.dropWhile p (List.replicate k '/' ++ m) = List.dropWhile p m
  | 0, _ => rfl
  | k + 1, m => by
    simp only [List.replicate, List.cons_append, List.dropWhile_cons, hp, if_true]
    exact dropWhile_replicate_slash_append p hp k m

theorem stripTrailingSlashes_append_slashes (s : String) (k : Nat) :
    stripTrailingSlashes (s ++ slashes k) = stripTrailingSlashes s := by
  cases s with | mk l =>
  show String.mk (((l ++ List.replicate k '/').reverse.dropWhile fun c => c == '/').reverse)
      = String.mk ((l.reverse.dropWhile fun c => c == '/').reverse)
  rw [List.reverse_append, List.reverse_replicate,
      dropWhile_replicate_slash_append _ rfl k]

theorem jsToLower_slashes (k : Nat) : jsToLower (slashes k) = slashes k := by
  have h : Char.toLower '/' = '/' := rfl
  simp [jsToLower, slashes, List.map_replicate, h]

theorem ne_empty_of_jsTrim_ne_empty {s : String} (h : jsTrim s ≠ "") : s ≠ "" := by
  intro he
  rw [he] at h
  exact h rfl

theorem jsTrim_ne_empty_of_mem {s : String} {c : Char} (hc : c ∈ s.data)
    (hw : isJsSpace c = false) : jsTrim s ≠ "" := by
  intro h
  have hdata : ((s.data.dropWhile isJsSpace).reverse.dropWhile isJsSpace).reverse = [] :=
    congrArg String.data h
  rw [List.reverse_eq_nil_iff, List.dropWhile_eq_nil_iff] at hdata
  have hcd : c ∈ s.data.dropWhile isJsSpace := by
    have hsplit : c ∈ s.data.takeWhile isJsSpace ++ s.data.dropWhile isJsSpace := by
      rw [List.takeWhile_append_dropWhile]
      exact hc
    rcases List.mem_append.mp hsplit with h1 | h1
    · exact absurd (List.mem_takeWhile_imp h1) (by simp [hw])
    · exact h1
  exact absurd (hdata c (List.mem_reverse.mpr hcd)) (by simp [hw])

theorem charToLower_of_space {c : Char} (h : isJsSpace c = true) : Char.toLower c = c := by
  simp [isJsSpace, Char.isWhitespace] at h
  rcases h with ((h | h) | h) | h <;> subst h <;> rfl

theorem map_toLower_of_all_space : ∀ l : List Char, (∀ c ∈ l, isJsSpace c = true) →
    l.map Char.toLower = l
  | [], _ => rfl
  | c :: cs, h => by
    simp only [List.map_cons]
    rw [charToLower_of_space (h c (List.mem_cons_self c cs)),
        map_toLower_of_all_space cs (fun x hx => h x (List.mem_cons_of_mem c hx))]

theorem jsToLower_of_all_space {s : String} (h : ∀ c ∈ s.data, isJsSpace c = true) :
    jsToLower s = s := by
  cases s with | mk l =>
  show String.mk (l.map Char.toLower) = String.mk l
  rw [map_toLower_of_all_space l h]

theorem all_space_of_jsTrim_empty {s : String} (h : jsTrim s = "") :
    ∀ c ∈ s.data, isJsSpace c = true := by
  have hdata : ((s.data.dropWhile isJsSpace).reverse.dropWhile isJsSpace).reverse = [] :=
    congrArg String.data h
  rw [List.reverse_eq_nil_iff, List.dropWhile_eq_nil_iff] at hdata
  intro c hc
  have hsplit : c ∈ s.data.takeWhile isJsSpace ++ s.data.dropWhile isJsSpace := by
    rw [List.takeWhile_append_dropWhile]
    exact hc
  rcases List.mem_append.mp hsplit with h1 | h1
  · exact List.mem_takeWhile_imp h1
  · exact hdata c (List.mem_reverse.mpr h1)

theorem mem_of_listIsPre {p l : List Char} (h : listIsPre p l = true) :
    ∀ c ∈ p, c ∈ l := by
  induction p generalizing l with
  | nil => intro c hc; exact absurd hc (List.not_mem_nil c)
  | cons a as ih =>
    cases l with
    | nil => simp [listIsPre] at h
    | cons b bs =>
      simp only [listIsPre, Bool.and_eq_true, beq_iff_eq] at h
      intro c hc
      rcases List.mem_cons.mp hc with hc | hc
      · subst hc; rw [h.1]; exact List.mem_cons_self b bs
      · exact List.mem_cons_of_mem b (ih h.2 c hc)

theorem mem_of_listHasSub {p l : List Char} (h : listHasSub p l = true) :
    ∀ c ∈ p, c ∈ l := by
  induction l with
  | nil =>
    cases p with
    | nil => intro c hc; exact absurd hc (List.not_mem_nil c)
    | cons a as => simp [listHasSub, listIsPre] at h
  | cons d ds ih =>
    simp only [listHasSub, Bool.or_eq_true] at h
    rcases h with h | h
    · exact mem_of_listIsPre h
    · intro c hc; exact List.mem_cons_of_mem d (ih h c hc)

theorem strIncludes_false_of_not_mem {t pat : String} {c : Char} (hc : c ∈ pat.data)
    (hnm : c ∉ t.data) : strIncludes t pat = false := by
  by_contra h
  rw [Bool.not_eq_false] at h
  exact hnm (mem_of_listHasSub h c hc)

theorem not_mem_of_all_space {s : String} (hs : ∀ c ∈ s.data, isJsSpace c = true)
    {c : Char} (hc : isJsSpace c = false) : c ∉ s.data := by
  intro hm
  rw [hs c hm] at hc
  exact absurd hc (by decide)

theorem str_append_assoc (a b c : String) : (a ++ b) ++ c = a ++ (b ++ c) := by
  cases a with | mk x =>
  cases b with | mk y =>
  cases c with | mk z =>
  show String.mk ((x ++ y) ++ z) = String.mk (x ++ (y ++ z))
  rw [List.append_assoc]

theorem formatIdentity_ws {s : String} (hne : s ≠ "")
    (hs : ∀ c ∈ s.data, isJsSpace c = true) :
    formatIdentity s = ("acc://" ++ s) ++ ".acme" := by
  have h1 : strIncludes s "acc://" = false :=
    strIncludes_false_of_not_mem (c := 'a') (by decide) (not_mem_of_all_space hs (by decide))
  have h2 : strIncludes ("acc://" ++ s) ".acme" = false := by
    apply strIncludes_false_of_not_mem (c := '.') (by decide)
    intro hm
    rw [String.data_append] at hm
    rcases List.mem_append.mp hm with hm | hm
    · exact absurd hm (by decide)
    · exact absurd hm (not_mem_of_all_space hs (by decide))
  simp only [formatIdentity, if_neg hne, jsToLower_of_all_space hs, h1, h2,
    Bool.false_eq_true, if_false]

theorem splitOnChar_ne_nil (sep : Char) (l : List Char) : splitOnChar sep l ≠ [] := by
  induction l with
  | nil => simp [splitOnChar]
  | cons c cs ih =>
    simp only [splitOnChar]
    cases h : splitOnChar sep cs with
    | nil => exact absurd h ih
    | cons hd tl => by_cases hc : c == sep <;> simp [hc]

theorem splitOnChar_sepfree_append (sep : Char) :
    ∀ (l m : List Char), (∀ x ∈ l, (x == sep) = false) →
      splitOnChar sep (l ++ sep :: m) = l :: splitOnChar sep m
  | [], m, _ => by
    simp only [List.nil_append, splitOnChar]
    cases h : splitOnChar sep m with
    | nil => exact absurd h (splitOnChar_ne_nil sep m)
    | cons hd tl => simp
  | x :: xs, m, h => by
    simp only [List.cons_append, splitOnChar, List.append_eq]
    rw [splitOnChar_sepfree_append sep xs m (fun y hy => h y (List.mem_cons_of_mem x hy))]
    simp [h x (List.mem_cons_self x xs)]

theorem ws_ne_char {x c : Char} (hx : isJsSpace x = true) (hc : isJsSpace c = false) :
    (x == c) = false := by
  by_contra h
  rw [Bool.not_eq_false, beq_iff_eq] at h
  subst h
  rw [hx] at hc
  exact absurd hc (by decide)

theorem ws_pred_true {x : Char} (hx : isJsSpace x = true) :
    (x != '.' && x != '/') = true := by
  have h1 : (x == '.') = false := ws_ne_char hx (by decide)
  have h2 : (x == '/') = false := ws_ne_char hx (by decide)
  simp [bne, h1, h2]

theorem takeWhile_all_append (p : Char → Bool) :
    ∀ (l m : List Char), (∀ x ∈ l, p x = true) →
      List.takeWhile p (l ++ m) = l ++ List.takeWhile p m
  | [], _, _ => rfl
  | x :: xs, m, h => by
    simp only [List.cons_append, List.takeWhile_cons_of_pos (h x (List.mem_cons_self x xs))]
    rw [takeWhile_all_append p xs m (fun y hy => h y (List.mem_cons_of_mem x hy))]

theorem strDrop_acc (t : String) : strDrop ("acc://" ++ t) 6 = t := by
  cases t with | mk m =>
  show String.mk (("acc://".data ++ m).drop 6) = String.mk m
  rw [List.drop_left' (by rfl)]

theorem strStartsWith_acc (t : String) : strStartsWith ("acc://" ++ t) "acc://" = true := by
  cases t with | mk l =>
  exact listIsPre_append_self _ l

theorem matchIdentityRegex_ws (s : String) (hne : s ≠ "")
    (hs : ∀ c ∈ s.data, isJsSpace c = true) :
    matchIdentityRegex (("acc://" ++ s) ++ ".acme") = some (s, "") := by
  rw [str_append_assoc]
  have hsw : strStartsWith ("acc://" ++ (s ++ ".acme")) "acc://" = true :=
    strStartsWith_acc _
  have hdrop : strDrop ("acc://" ++ (s ++ ".acme")) 6 = s ++ ".acme" := strDrop_acc _
  have htake : (s ++ ".acme").data.takeWhile (fun c => c != '.' && c != '/') = s.data := by
    rw [String.data_append]
    rw [takeWhile_all_append _ s.data ".acme".data (fun x hx => ws_pred_true (hs x hx))]
    simp
  simp only [matchIdentityRegex, hsw, if_true, hdrop, htake]
  have heta : String.mk s.data = s := by cases s; rfl
  rw [heta]
  rw [if_neg hne]
  have hdrop2 : List.drop s.length ((s ++ ".acme").data) = ".acme".data := by
    rw [String.data_append]
    exact List.drop_left' rfl
  rw [hdrop2]
  rfl

theorem stripTrailingSlashes_acme (t : String) :
    stripTrailingSlashes (t ++ ".acme") = t ++ ".acme" := by
  cases t with | mk l =>
  show String.mk (((l ++ ".acme".data).reverse.dropWhile fun c => c == '/').reverse)
      = String.mk (l ++ ".acme".data)
  rw [List.reverse_append,
      show ".acme".data.reverse = 'e' :: 'm' :: 'c' :: 'a' :: '.' :: [] from rfl,
      List.cons_append, List.dropWhile_cons_of_neg (by decide)]
  simp

theorem jsToLower_ws_formatted {s : String} (hs : ∀ c ∈ s.data, isJsSpace c = true) :
    jsToLower (("acc://" ++ s) ++ ".acme") = ("acc://" ++ s) ++ ".acme" := by
  rw [jsToLower_append, jsToLower_append, jsToLower_of_all_space hs]
  rfl

theorem parseAdi2_ws (s : String) (hs : ∀ c ∈ s.data, isJsSpace c = true) :
    parseAdi2 (("acc://" ++ s) ++ ".acme")
      = some { url := ("acc://" ++ s) ++ ".acme",
               path := s ++ ".acme",
               name := s,
               rootUrl := ("acc://" ++ s) ++ ".acme",
               subPath := "" } := by
  have htrim : jsTrim (("acc://" ++ s) ++ ".acme") ≠ "" := by
    apply jsTrim_ne_empty_of_mem (c := 'a')
    · show 'a' ∈ ("acc://".data ++ s.data) ++ ".acme".data
      exact List.mem_append.mpr (Or.inl (List.mem_append.mpr (Or.inl (by decide))))
    · rfl
  have hfix : fixAdiUrl (("acc://" ++ s) ++ ".acme") = ("acc://" ++ s) ++ ".acme" := by
    simp only [fixAdiUrl, if_neg (ne_empty_of_jsTrim_ne_empty htrim),
      jsToLower_ws_formatted hs, stripTrailingSlashes_acme]
  have hsw : strStartsWith (("acc://" ++ s) ++ ".acme") "acc://" = true := by
    rw [str_append_assoc]
    exact strStartsWith_acc _
  have hdrop : strDrop (("acc://" ++ s) ++ ".acme") 6 = s ++ ".acme" := by
    rw [str_append_assoc]
    exact strDrop_acc _
  have hsplit : splitOnChar '.' ((s ++ ".acme").data) = [s.data, "acme".data] := by
    rw [String.data_append, show ".acme".data = '.' :: "acme".data from rfl,
        splitOnChar_sepfree_append '.' s.data "acme".data
          (fun x hx => ws_ne_char (hs x hx) (by decide))]
    rfl
  simp only [parseAdi2, if_neg htrim, hfix]
  rw [if_pos hsw, hdrop, hsplit]
  rfl

/-! ### Claims -/

/-- C1: section selection in the data client.  A plain (non-null,
non-array) object parsed from the response is returned unchanged
whatever its name field holds; an array yields its first element in
scan order whose name field equals "main"; an array without such an
element yields absent. -/
theorem claim1_findMainSection_selection :
    (∀ fields, findMainSection (JVal.jobj fields) = some (JVal.jobj fields)) ∧
    (∀ elems, findMainSection (JVal.jarr elems)
        = elems.find? (fun it => getName it == some "main")) ∧
    (∀ elems, (∀ it ∈ elems, getName it ≠ some "main") →
        findMainSection (JVal.jarr elems) = none) := by
  have harr : ∀ elems, findMainSection (JVal.jarr elems)
      = elems.find? (fun it => getName it == some "main") := fun elems =>
    find?_eq_of_pred_eq isMainItem_eq_getName elems
  refine ⟨fun _ => rfl, harr, fun elems h => ?_⟩
  rw [harr]
  rw [List.find?_eq_none]
  intro it hit
  simpa using h it hit

/-- Witness for C1: an array whose single element is not named "main"
yields absent. -/
theorem claim1_witness :
    findMainSection (JVal.jarr [JVal.jstr "header"]) = none :=
  claim1_findMainSection_selection.2.2 [JVal.jstr "header"] (by
    intro it hit
    rw [List.mem_singleton] at hit
    subst hit
    simp [getName])

/-- C3: cache expiry semantics.  A set followed by a get at the same
instant returns the stored value; with an entry present, a lookup is
absent exactly when the age reaches the five-minute timeout, returns the
stored data while younger, and evicts the entry when expired; a set
always installs a fresh entry stamped with the write time; and neither a
lookup nor a set touches any other key. -/
theorem claim3_cache_expiry :
    (∀ (c : ApiCache) (k : String) (v : JVal) (now : Nat),
        (cacheLookup (cacheStore c k v now) k now).1 = some v) ∧
    (∀ (c : ApiCache) (k : String) (now : Nat) (e : CacheEntry), mapGet c k = some e →
        ((cacheLookup c k now).1 = none ↔ cacheTimeout ≤ now - e.timestamp) ∧
        (now - e.timestamp < cacheTimeout → (cacheLookup c k now).1 = some e.data) ∧
        (cacheTimeout ≤ now - e.timestamp → mapGet (cacheLookup c k now).2 k = none)) ∧
    (∀ (c : ApiCache) (k : String) (v : JVal) (now : Nat),
        mapGet (cacheStore c k v now) k = some { data := v, timestamp := now }) ∧
    (∀ (c : ApiCache) (k k' : String) (now : Nat), k' ≠ k →
        mapGet (cacheLookup c k now).2 k' = mapGet c k' ∧
        ∀ v, mapGet (cacheStore c k v now) k' = mapGet c k') := by
  refine ⟨?_, ?_, ?_, ?_⟩
  · intro c k v now
    simp [cacheLookup, cacheStore, mapGet_mapSet_self, Nat.sub_self, cacheTimeout_pos]
  · intro c k now e h
    simp only [cacheLookup, h]
    by_cases hfresh : now - e.timestamp < cacheTimeout
    · simp [hfresh, Nat.not_le.mpr hfresh]
    · simp [hfresh, Nat.not_lt.mp hfresh, mapGet_mapDelete_self]
  · intro c k v now
    exact mapGet_mapSet_self c k _
  · intro c k k' now hne
    refine ⟨?_, fun v => mapGet_mapSet_ne c k k' _ hne⟩
    simp only [cacheLookup]
    cases hget : mapGet c k with
    | none => rfl
    | some e =>
      by_cases hfresh : now - e.timestamp < cacheTimeout
      · simp [hfresh]
      · simp [hfresh, mapGet_mapDelete_ne c k k' hne]

/-- Witness for C3: a concrete round-trip, the expiry boundary at
exactly the timeout, and the frame condition on another key. -/
theorem claim3_witness :
    (cacheLookup (cacheStore [] "k" (JVal.jstr "v") 0) "k" 0).1 = some (JVal.jstr "v") ∧
    ((cacheLookup [("k", ⟨JVal.jstr "v", 0⟩)] "k" cacheTimeout).1 = none ↔
        cacheTimeout ≤ cacheTimeout - (0 : Nat)) ∧
    mapGet (cacheLookup [("k", ⟨JVal.jstr "v", 0⟩)] "k" cacheTimeout).2 "other"
        = mapGet [("k", (⟨JVal.jstr "v", 0⟩ : CacheEntry))] "other" :=
  ⟨claim3_cache_expiry.1 [] "k" (JVal.jstr "v") 0,
   (claim3_cache_expiry.2.1 [("k", ⟨JVal.jstr "v", 0⟩)] "k" cacheTimeout
      ⟨JVal.jstr "v", 0⟩ rfl).1,
   (claim3_cache_expiry.2.2.2 [("k", ⟨JVal.jstr "v", 0⟩)] "k" "other" cacheTimeout
      (by decide)).1⟩

/-- C5: URL building.  For an AdiUrlClass whose parsed name is
"sunstream" with empty sub-path, the BankOnLedger URL under network
"mainnet" is exactly the expected string; and in general the URL built
from any successfully parsed locator is the scheme, the root name, the
partner domain, the sub-path and the current-network query assembled in
that shape. -/
theorem claim5_buildUrl :
    (∀ a : AdiUrl, a.name = some "sunstream" → a.pathEnd = "" →
        bankOnLedger_Url a "mainnet"
          = "https://sunstream.BankOnLedger.com/?current-network=mainnet") ∧
    (∀ (s : String) (adi : Adi) (site network : String), parseAdi2 s = some adi →
        calculate_app_Url (AdiUrl.init_ByAdiUrl s) site network
          = "https://" ++ adi.name ++ "." ++ site ++ "/" ++ adi.subPath
              ++ "?current-network=" ++ network) := by
  constructor
  · intro a h1 h2
    obtain ⟨url, name, path, pathEnd⟩ := a
    simp only at h1 h2
    subst h1; subst h2
    rfl
  · intro s adi site network hparse
    unfold AdiUrl.init_ByAdiUrl
    rw [hparse]
    rfl

/-- Witness for C5: the canonical locator produces exactly the
documented URL, and its parse feeds the general shape. -/
theorem claim5_witness :
    bankOnLedger_Url (AdiUrl.init_ByAdiUrl "acc://sunstream.acme") "mainnet"
        = "https://sunstream.BankOnLedger.com/?current-network=mainnet" ∧
    calculate_app_Url (AdiUrl.init_ByAdiUrl "acc://sunstream.acme") "Qoboto.com" "kermit"
        = "https://" ++ "sunstream" ++ "." ++ "Qoboto.com" ++ "/" ++ ""
            ++ "?current-network=" ++ "kermit" :=
  ⟨claim5_buildUrl.1 (AdiUrl.init_ByAdiUrl "acc://sunstream.acme") rfl rfl,
   claim5_buildUrl.2 "acc://sunstream.acme"
     ⟨"acc://sunstream.acme", "sunstream.acme", "sunstream", "acc://sunstream.acme", ""⟩
     "Qoboto.com" "kermit" rfl⟩

/-- C6: switching the network context between two builds on the same
parsed identity changes only the value of the current-network query
parameter; the scheme, root name, partner domain and sub-path prefix is
one and the same string, because the network name is re-read from the
context on each call. -/
theorem claim6_network_switch :
    ∀ (s : String) (adi : Adi) (site n1 n2 : String), parseAdi2 s = some adi →
      ∃ pre : String,
        calculate_app_Url (AdiUrl.init_ByAdiUrl s) site (currentNetworkName n1)
          = pre ++ currentNetworkName n1 ∧
        calculate_app_Url (AdiUrl.init_ByAdiUrl s) site
            (currentNetworkName (switchNetworkName n1 n2))
          = pre ++ currentNetworkName (switchNetworkName n1 n2) ∧
        pre = "https://" ++ adi.name ++ "." ++ site ++ "/" ++ adi.subPath
            ++ "?current-network=" := by
  intro s adi site n1 n2 hparse
  refine ⟨_, ?_, ?_, rfl⟩ <;>
    (unfold AdiUrl.init_ByAdiUrl; rw [hparse]; rfl)

/-- Witness for C6: a concrete switch from "mainnet" to "kermit" on the
canonical locator. -/
theorem claim6_witness :
    ∃ pre : String,
      calculate_app_Url (AdiUrl.init_ByAdiUrl "acc://sunstream.acme") "BankOnLedger.com"
          (currentNetworkName "mainnet") = pre ++ currentNetworkName "mainnet" ∧
      calculate_app_Url (AdiUrl.init_ByAdiUrl "acc://sunstream.acme") "BankOnLedger.com"
          (currentNetworkName (switchNetworkName "mainnet" "kermit"))
        = pre ++ currentNetworkName (switchNetworkName "mainnet" "kermit") ∧
      pre = "https://" ++ "sunstream" ++ "." ++ "BankOnLedger.com" ++ "/" ++ ""
          ++ "?current-network=" :=
  claim6_network_switch "acc://sunstream.acme"
    ⟨"acc://sunstream.acme", "sunstream.acme", "sunstream", "acc://sunstream.acme", ""⟩
    "BankOnLedger.com" "mainnet" "kermit" rfl

theorem getD_truthy {o : Option JVal} (h : optTruthy o = true) :
    jvTruthy (o.getD JVal.jnull) = true := by
  cases o with
  | none => simp [optTruthy] at h
  | some v => simpa [optTruthy] using h

theorem defaultDescription_truthy (nm : String) :
    jvTruthy (JVal.jstr (defaultDescription nm)) = true := by
  simp only [jvTruthy, bne_iff_ne, ne_eq]
  intro h
  have hd : (defaultDescription nm).data = [] := by rw [h]
  simp [defaultDescription, String.data_append] at hd

/-- C2: for a freshly constructed identity record, every accessor
returns a truthy value whenever its default is truthy; when the data
client comes back absent (which is what a response without a "main"
section produces) or the awaited fetch throws, each of the three
accessors returns its fixed documented default, and that default is
memoized, so a repeated call returns it again whatever the fetch layer
would now produce. -/
theorem claim2_accessor_fallback :
    (∀ (fld : String) (elems : List JVal),
        (∀ it ∈ elems, getName it ≠ some "main") →
        clientFieldLookup (JVal.jarr elems) fld = none) ∧
    (∀ (st : FieldState) (r : ClientResult) (dflt : JVal), jvTruthy dflt = true →
        jvTruthy (resolveField st r dflt).1 = true) ∧
    (∀ r : ClientResult, r = ClientResult.ok JVal.jnull ∨ r = ClientResult.threw →
      ((logoUrlAccessor freshFieldState r).1 = JVal.jstr defaultLogoUrl ∧
        ∀ r2, logoUrlAccessor (logoUrlAccessor freshFieldState r).2 r2
          = (JVal.jstr defaultLogoUrl, (logoUrlAccessor freshFieldState r).2)) ∧
      (∀ nm, (descriptionAccessor nm freshFieldState r).1 = JVal.jstr (defaultDescription nm) ∧
        ∀ r2, descriptionAccessor nm (descriptionAccessor nm freshFieldState r).2 r2
          = (JVal.jstr (defaultDescription nm), (descriptionAccessor nm freshFieldState r).2)) ∧
      ((backgroundAccessor freshFieldState r).1 = JVal.jstr defaultBackgroundImageUrl ∧
        ∀ r2, backgroundAccessor (backgroundAccessor freshFieldState r).2 r2
          = (JVal.jstr defaultBackgroundImageUrl, (backgroundAccessor freshFieldState r).2))) := by
  refine ⟨?_, ?_, ?_⟩
  · intro fld elems h
    have hnone : findMainSection (JVal.jarr elems) = none := by
      show List.find? isMainItem elems = none
      rw [List.find?_eq_none]
      intro it hit
      rw [isMainItem_eq_getName]
      simpa using h it hit
    simp [clientFieldLookup, hnone]
  · intro st r dflt hd
    by_cases ho : optTruthy st.override = true
    · simpa [resolveField, ho] using getD_truthy ho
    · by_cases hc : optTruthy st.cache = true
      · simpa [resolveField, ho, hc] using getD_truthy hc
      · cases r with
        | threw => simpa [resolveField, ho, hc] using hd
        | ok v =>
          by_cases hv : jvTruthy v = true
          · simp [resolveField, ho, hc, hv]
          · simpa [resolveField, ho, hc, hv] using hd
  · intro r hr
    have hcases : ∀ dflt : JVal,
        resolveField freshFieldState r dflt = (dflt, ⟨none, some dflt⟩) := by
      intro dflt
      rcases hr with hr | hr <;> subst hr <;> rfl
    refine ⟨⟨?_, ?_⟩, fun nm => ⟨?_, ?_⟩, ?_, ?_⟩
    · rw [logoUrlAccessor, hcases]
    · intro r2
      simp only [logoUrlAccessor, hcases]
      rfl
    · rw [descriptionAccessor, hcases]
    · intro r2
      simp only [descriptionAccessor, hcases]
      simp [resolveField, optTruthy, defaultDescription_truthy nm]
    · rw [backgroundAccessor, hcases]
    · intro r2
      simp only [backgroundAccessor, hcases]
      rfl

/-- Witness for C2: a response whose only section is named "header"
yields absent at the client, and a throwing fetch still yields the
documented default logo from a fresh record. -/
theorem claim2_witness :
    clientFieldLookup (JVal.jarr [JVal.jobj [("name", JVal.jstr "header")]]) "logoUrl" = none ∧
    jvTruthy (resolveField freshFieldState ClientResult.threw (JVal.jstr "d")).1 = true ∧
    (logoUrlAccessor freshFieldState ClientResult.threw).1 = JVal.jstr defaultLogoUrl :=
  ⟨claim2_accessor_fallback.1 "logoUrl" [JVal.jobj [("name", JVal.jstr "header")]] (by
      intro it hit
      rw [List.mem_singleton] at hit
      subst hit
      decide),
   claim2_accessor_fallback.2.1 freshFieldState ClientResult.threw (JVal.jstr "d") rfl,
   ((claim2_accessor_fallback.2.2 ClientResult.threw (Or.inr rfl)).1).1⟩

/-- C4 counterexample: the claim fails for the override value that is
the empty string.  With the empty string set through the manual-override
setter and a live fetch that yields a logo, the accessor returns the
fetched logo rather than the override, because the override check tests
JavaScript truthiness and the empty string is falsy. -/
theorem claim4_counterexample :
    (logoUrlAccessor (setCustomOverride freshFieldState (JVal.jstr ""))
        (ClientResult.ok (JVal.jstr "https://live.example/logo.png"))).1
      ≠ JVal.jstr "" := by
  intro h
  have h' : JVal.jstr "https://live.example/logo.png" = JVal.jstr "" := h
  have h2 : ("https://live.example/logo.png" : String) = "" := by injection h'
  exact absurd h2 (by decide)

/-- C4 amended: every truthy (in particular every non-empty-string)
override value set through the manual-override setter wins over both the
memo cache and the live fetch, the accessor leaves the override in
place so it keeps winning until explicitly cleared, and clearing removes
it. -/
theorem claim4_override_priority :
    ∀ (st : FieldState) (v dflt : JVal) (r : ClientResult), jvTruthy v = true →
      resolveField (setCustomOverride st v) r dflt = (v, setCustomOverride st v) ∧
      (clearOverrides (setCustomOverride st v)).override = none := by
  intro st v dflt r hv
  refine ⟨?_, rfl⟩
  simp [resolveField, setCustomOverride, optTruthy, hv]

/-- Witness for C4: a concrete non-empty override beats a throwing
fetch on a fresh record. -/
theorem claim4_witness :
    jvTruthy (JVal.jstr "https://o.example/x.png") = true ∧
    resolveField (setCustomOverride freshFieldState (JVal.jstr "https://o.example/x.png"))
        ClientResult.threw (JVal.jstr "d")
      = (JVal.jstr "https://o.example/x.png",
         setCustomOverride freshFieldState (JVal.jstr "https://o.example/x.png")) :=
  ⟨rfl,
   (claim4_override_priority freshFieldState (JVal.jstr "https://o.example/x.png")
      (JVal.jstr "d") ClientResult.threw rfl).1⟩

/-- C7: parsing canonical locators.  The canonical locator yields root
name "sunstream" and empty sub-path, and the same locator with a
"/somepath" remainder yields the non-empty sub-path "somepath", the
remainder after the five-character separator prefix. -/
theorem claim7_parse_canonical :
    (parseAdi2 "acc://sunstream.acme").map Adi.name = some "sunstream" ∧
    (parseAdi2 "acc://sunstream.acme").map Adi.subPath = some "" ∧
    (parseAdi2 "acc://sunstream.acme/somepath").map Adi.subPath = some "somepath" :=
  ⟨rfl, rfl, rfl⟩

/-- C8: normalization is idempotent on every input missing the scheme
prefix and/or the fixed suffix (the property in fact holds for every
input). -/
theorem claim8_normalize_idempotent :
    ∀ s : String, (strIncludes s "acc://" = false ∨ strIncludes s ".acme" = false) →
      formatIdentity (formatIdentity s) = formatIdentity s :=
  fun s _ => formatIdentity_idem s

/-- Witness for C8: a mixed-case bare name missing both the scheme and
the suffix. -/
theorem claim8_witness :
    (strIncludes "SunStream" "acc://" = false ∨ strIncludes "SunStream" ".acme" = false) ∧
    formatIdentity (formatIdentity "SunStream") = formatIdentity "SunStream" :=
  ⟨Or.inl (by decide), claim8_normalize_idempotent "SunStream" (Or.inl (by decide))⟩

/-- C9 counterexample: the single space is an all-whitespace input, yet
the URL-builder path does not return the null sentinel: normalization
turns it into "acc:// .acme", which matches the identity pattern (a
space is neither a dot nor a slash), so the builder returns a URL whose
root name is the space. -/
theorem claim9_counterexample :
    jsTrim " " = "" ∧
    getBankOnLedgerUrl " " "mainnet"
      = some "https:// .BankOnLedger.com/?current-network=mainnet" :=
  ⟨rfl, rfl⟩

/-- C9 amended: for the empty input the URL-builder path returns null
(the identity pattern cannot match), and the identity-locator path
returns null for every empty or all-whitespace input; but for every
non-empty all-whitespace input the URL-builder path produces, instead
of a null sentinel, the URL whose root name is the whitespace run,
because normalization yields acc://(whitespace).acme, which matches the
identity pattern. -/
theorem claim9_empty_and_whitespace :
    getBankOnLedgerUrl "" "mainnet" = none ∧
    (∀ s : String, jsTrim s = "" → parseAdi2 s = none) ∧
    (∀ (s network : String), s ≠ "" → jsTrim s = "" →
        getBankOnLedgerUrl s network
          = some ("https://" ++ s ++ "." ++ "BankOnLedger.com" ++ "/" ++ ""
              ++ "?current-network=" ++ network)) := by
  refine ⟨rfl, ?_, ?_⟩
  · intro s hs
    simp [parseAdi2, hs]
  · intro s network hne htrim
    have hs := all_space_of_jsTrim_empty htrim
    have hfmt := formatIdentity_ws hne hs
    simp only [getBankOnLedgerUrl, createByIdentityUrl, hfmt,
      matchIdentityRegex_ws s hne hs]
    simp only [AdiUrl.init_ByAdiUrl, parseAdi2_ws s hs]
    rfl

/-- Witness for C9: a tab-and-space input is all whitespace and the
locator parser rejects it, while the single space flows through the
URL-builder path to a URL whose root name is the space. -/
theorem claim9_witness :
    (jsTrim "\t " = "" ∧ parseAdi2 "\t " = none) ∧
    getBankOnLedgerUrl " " "kermit"
      = some ("https://" ++ " " ++ "." ++ "BankOnLedger.com" ++ "/" ++ ""
          ++ "?current-network=" ++ "kermit") :=
  ⟨⟨by decide, claim9_empty_and_whitespace.2.1 "\t " (by decide)⟩,
   claim9_empty_and_whitespace.2.2 " " "kermit" (by decide) (by decide)⟩

/-- C10: parsing is insensitive to trailing path separators.  For every
input whose trimmed form is non-empty and every positive k, appending k
trailing slashes leaves the whole parsed record unchanged, because the
trailing slashes are stripped by fixAdiUrl. -/
theorem claim10_trailing_slashes :
    ∀ (s : String) (k : Nat), 0 < k → jsTrim s ≠ "" →
      parseAdi2 (s ++ slashes k) = parseAdi2 s := by
  intro s k hk htrim
  have hne2 : jsTrim (s ++ slashes k) ≠ "" := by
    apply jsTrim_ne_empty_of_mem (c := '/')
    · rw [String.data_append]
      refine List.mem_append.mpr (Or.inr ?_)
      show '/' ∈ List.replicate k '/'
      exact List.mem_replicate.mpr ⟨by omega, rfl⟩
    · rfl
  have hsne : s ≠ "" := ne_empty_of_jsTrim_ne_empty htrim
  have happne : s ++ slashes k ≠ "" := ne_empty_of_jsTrim_ne_empty hne2
  have hfix : fixAdiUrl (s ++ slashes k) = fixAdiUrl s := by
    rw [fixAdiUrl, fixAdiUrl, if_neg happne, if_neg hsne, jsToLower_append,
        jsToLower_slashes, stripTrailingSlashes_append_slashes]
  simp only [parseAdi2, if_neg hne2, if_neg htrim, hfix]

/-- Witness for C10: one trailing slash on a bare name. -/
theorem claim10_witness :
    (0 < 1 ∧ jsTrim "a" ≠ "") ∧ parseAdi2 ("a" ++ slashes 1) = parseAdi2 "a" :=
  ⟨⟨by decide, by decide⟩, claim10_trailing_slashes "a" 1 (by decide) (by decide)⟩

end OperateId
